import Mathlib

/-!
# OodleTrainerCommandlet — verified model

A shallow embedding of the Oodle network-dictionary trainer
(`src/OodleNetwork/Source/Classes/OodleTrainerCommandlet.h`).  The repository
ships only the header: the class declarations, field layout and the
`FOodleDictionaryGenerator` constructor are source-level facts; the bodies of
the declared operations are not in the repository and are modelled from the
specification, each such definition carrying a `Modelled from the spec:` doc
comment.

Bytes are `Nat` values (< 256 where produced by an encoder); packet payloads
are byte lists; machine integers are modelled as `Nat` with explicit `% 2 ^ 32`
where a 32-bit width matters.
-/

namespace Oodle

/-- A packet payload: an immutable byte buffer (spec §3, `PacketRecord`). -/
abbrev Packet := List Nat

/-! ## Capture codec -/

/-- Errors of the capture codec (spec §7). -/
inductive CaptureError where
  | MalformedCapture
  deriving Repr, DecidableEq

/-- Modelled from the spec: the capture-format writer is not under `src/`
(the header only declares the merge/read entry points).  Spec §6: a record is
a `uint32` length followed by that many payload bytes; the four length bytes
are laid out little-endian, the length reduced to 32 bits. -/
def encodeU32 (n : Nat) : List Nat :=
  [n % 256, n / 256 % 256, n / 256 ^ 2 % 256, n / 256 ^ 3 % 256]

/-- Reassemble a `uint32` from its four little-endian bytes. -/
def decodeU32 (b0 b1 b2 b3 : Nat) : Nat :=
  b0 + 256 * b1 + 256 ^ 2 * b2 + 256 ^ 3 * b3

/-- Modelled from the spec: `encode(sequence of PacketRecord) -> stream`
(spec §4.1); each record is stored as a length prefix followed by exactly
that many bytes; a record of length 0 is valid. -/
def encode : List Packet → List Nat
  | [] => []
  | p :: ps => encodeU32 p.length ++ p ++ encode ps

/-- Modelled from the spec: `decode(stream) -> sequence of PacketRecord`
(spec §4.1); decoding fails with `MalformedCapture` if a length prefix would
read past end-of-stream, and a truncated trailing record (including a
truncated length prefix) is a hard error, never a silent skip (spec §6). -/
def decode : List Nat → Except CaptureError (List Packet)
  | [] => .ok []
  | b0 :: b1 :: b2 :: b3 :: rest =>
    if decodeU32 b0 b1 b2 b3 ≤ rest.length then
      match decode (rest.drop (decodeU32 b0 b1 b2 b3)) with
      | .ok ps => .ok (rest.take (decodeU32 b0 b1 b2 b3) :: ps)
      | .error e => .error e
    else
      .error .MalformedCapture
  | _ :: _ => .error .MalformedCapture
  termination_by s => s.length
  decreasing_by
    simp only [List.length_drop, List.length_cons]
    omega

/-- Extracting the low 32 bits laid out by `encodeU32` returns the value
modulo `2 ^ 32`. -/
theorem decodeU32_encodeU32 (n : Nat) :
    decodeU32 (n % 256) (n / 256 % 256) (n / 256 ^ 2 % 256) (n / 256 ^ 3 % 256) =
      n % 2 ^ 32 := by
  simp only [decodeU32]
  omega

/-- Taking the length of the left operand back off a concatenation returns
that operand. -/
theorem take_length_append {α : Type} (l₁ l₂ : List α) :
    (l₁ ++ l₂).take l₁.length = l₁ := by
  induction l₁ with
  | nil => simp
  | cons a l ih => simp [ih]

/-- Dropping the length of the left operand off a concatenation returns the
right operand. -/
theorem drop_length_append {α : Type} (l₁ l₂ : List α) :
    (l₁ ++ l₂).drop l₁.length = l₂ := by
  induction l₁ with
  | nil => simp
  | cons a l ih => simp [ih]

/-- A freshly encoded record stream starts with the four length bytes. -/
theorem encode_cons (p : Packet) (ps : List Packet) :
    encode (p :: ps) =
      p.length % 256 :: p.length / 256 % 256 :: p.length / 256 ^ 2 % 256 ::
        p.length / 256 ^ 3 % 256 :: (p ++ encode ps) := by
  simp [encode, encodeU32]

/-- **C1.** For every finite sequence `x` of packet records (empty payloads
included) whose lengths fit the `uint32` prefix, decoding the stream produced
by encoding `x` yields exactly `x`, in order: `decode (encode x) = .ok x`. -/
theorem decode_encode_roundtrip (ps : List Packet)
    (h : ∀ p ∈ ps, p.length < 2 ^ 32) :
    decode (encode ps) = .ok ps := by
  induction ps with
  | nil => simp [encode, decode]
  | cons p ps ih =>
    have hp : p.length < 2 ^ 32 := h p (by simp)
    have hps : ∀ q ∈ ps, q.length < 2 ^ 32 := fun q hq => h q (by simp [hq])
    rw [encode_cons, decode]
    rw [decodeU32_encodeU32, Nat.mod_eq_of_lt hp]
    have hle : p.length ≤ (p ++ encode ps).length := by
      simp [List.length_append]
    rw [if_pos hle, drop_length_append, ih hps, take_length_append]

/-- **C1 witness.** A concrete three-record round trip, one record empty. -/
theorem decode_encode_roundtrip_witness :
    (∀ p ∈ ([[1, 2], [], [255, 0, 7]] : List Packet), p.length < 2 ^ 32) ∧
      decode (encode [[1, 2], [], [255, 0, 7]]) = .ok [[1, 2], [], [255, 0, 7]] :=
  ⟨by decide, decode_encode_roundtrip [[1, 2], [], [255, 0, 7]] (by decide)⟩

/-- **C5.** Any stream consisting of well-formed records followed by a length
prefix announcing more payload bytes than remain is rejected whole: `decode`
fails with `MalformedCapture`, never silently skipping the truncated trailing
record. -/
theorem decode_truncated_malformed (ps : List Packet)
    (hps : ∀ p ∈ ps, p.length < 2 ^ 32) (len : Nat) (hlen : len < 2 ^ 32)
    (tail : List Nat) (ht : tail.length < len) :
    decode (encode ps ++ encodeU32 len ++ tail) = .error .MalformedCapture := by
  induction ps with
  | nil =>
    simp only [encode, List.nil_append, encodeU32, List.cons_append]
    rw [decode]
    rw [decodeU32_encodeU32, Nat.mod_eq_of_lt hlen]
    rw [if_neg (by omega)]
  | cons p ps ih =>
    have hp : p.length < 2 ^ 32 := hps p (by simp)
    have hrest : ∀ q ∈ ps, q.length < 2 ^ 32 := fun q hq => hps q (by simp [hq])
    have hshape :
        encode (p :: ps) ++ encodeU32 len ++ tail =
          p.length % 256 :: p.length / 256 % 256 :: p.length / 256 ^ 2 % 256 ::
            p.length / 256 ^ 3 % 256 ::
            (p ++ (encode ps ++ encodeU32 len ++ tail)) := by
      rw [encode_cons]
      simp
    rw [hshape, decode]
    rw [decodeU32_encodeU32, Nat.mod_eq_of_lt hp]
    have hle : p.length ≤ (p ++ (encode ps ++ encodeU32 len ++ tail)).length := by
      simp [List.length_append]
    rw [if_pos hle, drop_length_append, ih hrest]

/-- **C5 witness.** The spec's scenario: a length prefix of 10 followed by
only 4 bytes fails with `MalformedCapture`. -/
theorem decode_truncated_malformed_witness :
    (10 : Nat) < 2 ^ 32 ∧ ([1, 2, 3, 4] : List Nat).length < 10 ∧
      decode (encode [] ++ encodeU32 10 ++ [1, 2, 3, 4]) =
        .error .MalformedCapture :=
  ⟨by decide, by decide,
    decode_truncated_malformed [] (by decide) 10 (by decide) [1, 2, 3, 4]
      (by decide)⟩

/-! ## Capture locator and merger -/

/-- A file name: a sequence of character codes. -/
abbrev FileName := List Nat

/-- Errors of the merge-map builder (spec §7). -/
inductive MergeError where
  | InsufficientInputError
  | FileOpenError
  deriving Repr, DecidableEq

/-- Modelled from the spec: the body of
`UOodleTrainerCommandlet::GetMergeMapFromList` (declared at header line 159,
whose doc comment describes a `bAllowSingleFile` behaviour) is not in the
repository.  Spec §4.2 `buildMergeSources`: if the resolved file count is 1
and single-file input is not explicitly permitted, fail with
`InsufficientInputError` (merging requires at least two sources); every path
must be openable (`openable` abstracts the filesystem), any unopenable path
failing the build; on success the merge map lists the opened sources in
discovery order. -/
def GetMergeMapFromList {α : Type} (openable : α → Bool) (fileList : List α)
    (bAllowSingleFile : Bool) : Except MergeError (List α) :=
  if fileList.length == 1 && !bAllowSingleFile then
    .error .InsufficientInputError
  else if fileList.all openable then
    .ok fileList
  else
    .error .FileOpenError

/-- **C6.** A resolved file list of length exactly 1 with single-file input
not permitted makes the merge-map builder fail with
`InsufficientInputError`; no merge map is returned. -/
theorem mergeMap_single_file_error {α : Type} (openable : α → Bool)
    (fileList : List α) (h1 : fileList.length = 1) :
    GetMergeMapFromList openable fileList false =
      .error .InsufficientInputError := by
  simp [GetMergeMapFromList, h1]

/-- **C6 witness.** The spec scenario: one file, `bAllowSingleFile = false`. -/
theorem mergeMap_single_file_error_witness :
    ([0] : List Nat).length = 1 ∧
      GetMergeMapFromList (fun _ : Nat => true) [0] false =
        .error .InsufficientInputError :=
  ⟨by decide, mergeMap_single_file_error (fun _ => true) [0] (by decide)⟩

/-- A byte-wise match of `f` against the head of the second list: `true` iff
the second list starts with `f`. -/
def leadMatch : List Nat → List Nat → Bool
  | [], _ => true
  | _ :: _, [] => false
  | a :: as, b :: bs => a == b && leadMatch as bs

/-- Substring test: `true` iff `f` occurs contiguously inside the second
list.  The empty `f` matches every list (spec §4.2: empty filter = match
all). -/
def hasSub (f : List Nat) : List Nat → Bool
  | [] => leadMatch f []
  | b :: rest => leadMatch f (b :: rest) || hasSub f rest

/-- `leadMatch` recognises exactly the lists extending `f`. -/
theorem leadMatch_iff (f n : List Nat) :
    leadMatch f n = true ↔ ∃ t, f ++ t = n := by
  induction f generalizing n with
  | nil => simp [leadMatch]
  | cons a as ih =>
    cases n with
    | nil => simp [leadMatch]
    | cons b bs =>
      simp only [leadMatch, Bool.and_eq_true, beq_iff_eq, ih, List.cons_append,
        List.cons.injEq]
      constructor
      · rintro ⟨rfl, t, rfl⟩
        exact ⟨t, rfl, rfl⟩
      · rintro ⟨t, rfl, rfl⟩
        exact ⟨rfl, t, rfl⟩

/-- `hasSub` recognises exactly the lists containing `f` contiguously. -/
theorem hasSub_iff (f n : List Nat) :
    hasSub f n = true ↔ ∃ s t, s ++ f ++ t = n := by
  induction n with
  | nil =>
    simp only [hasSub, leadMatch_iff]
    constructor
    · rintro ⟨t, ht⟩
      exact ⟨[], t, by simp [ht]⟩
    · rintro ⟨s, t, h⟩
      rcases List.append_eq_nil.mp h with ⟨hs, ht⟩
      rcases List.append_eq_nil.mp hs with ⟨hs2, hf⟩
      exact ⟨t, by simp [hf, ht]⟩
  | cons b rest ih =>
    simp only [hasSub, Bool.or_eq_true, leadMatch_iff, ih]
    constructor
    · rintro (⟨t, ht⟩ | ⟨s, t, rfl⟩)
      · exact ⟨[], t, by simp [ht]⟩
      · exact ⟨b :: s, t, by simp⟩
    · rintro ⟨s, t, h⟩
      cases s with
      | nil => exact Or.inl ⟨t, by simpa using h⟩
      | cons a s' =>
        rw [List.cons_append, List.cons_append, List.cons.injEq] at h
        exact Or.inr ⟨s', t, h.2⟩

/-- Modelled from the spec: the body of
`UOodleTrainerCommandlet::GetCaptureFiles` (declared at header line 179) is
not in the repository.  Spec §4.2 `locate`: over the recursively walked file
names, keep a file iff its name contains the filename filter (`""` matches
all files) and, when the changelist filter is not the ignore-all value
(header: changelist `-1`; modelled as `none`), its name contains the
changelist token. -/
def GetCaptureFiles (files : List FileName) (FilenameFilter : List Nat)
    (Changelist : Option (List Nat)) : List FileName :=
  files.filter (fun nm => hasSub FilenameFilter nm &&
    match Changelist with
    | none => true
    | some c => hasSub c nm)

/-- **C7.** The locator returns exactly the files whose name contains the
filename filter (the empty filter matching everything, since an empty
substring occurs in every name) and, when the changelist filter is not the
ignore-all value, the changelist token; no matching file is omitted and no
non-matching file is included. -/
theorem getCaptureFiles_filter_exact (files : List FileName) (F : List Nat)
    (C : Option (List Nat)) (y : FileName) :
    y ∈ GetCaptureFiles files F C ↔
      y ∈ files ∧ (∃ s t, s ++ F ++ t = y) ∧
        ∀ c, C = some c → ∃ s t, s ++ c ++ t = y := by
  cases C with
  | none => simp [GetCaptureFiles, List.mem_filter, hasSub_iff]
  | some c => simp [GetCaptureFiles, List.mem_filter, hasSub_iff, and_assoc]

/-! ## Debug dump converter -/

/-- Per-file error of the debug-dump converter (spec §7). -/
inductive DumpError where
  | DumpIOError
  deriving Repr, DecidableEq

/-- The converter's report: outputs of the files that converted, and a final
count of succeeded and failed files. -/
structure DumpSummary (β : Type) where
  outputs : List β
  succeeded : Nat
  failed : Nat
  deriving Repr, DecidableEq

/-- Modelled from the spec: the body of
`UOodleTrainerCommandlet::HandleDebugDumpPackets` (declared at header line
145) is not in the repository.  Spec §4.6: convert every matching capture
file, failing per-file with `DumpIOError` but continuing across the
remaining files, and report a final count of succeeded/failed files.
`tryDump` abstracts the per-file conversion (decode plus re-encode plus
write). -/
def HandleDebugDumpPackets {α β : Type} (tryDump : α → Except DumpError β) :
    List α → DumpSummary β
  | [] => ⟨[], 0, 0⟩
  | f :: rest =>
    match tryDump f, HandleDebugDumpPackets tryDump rest with
    | .ok o, s => ⟨o :: s.outputs, s.succeeded + 1, s.failed⟩
    | .error _, s => ⟨s.outputs, s.succeeded, s.failed + 1⟩

/-- A successful per-file result carries its output. -/
theorem toOption_ok {ε β : Type} (o : β) :
    (Except.ok o : Except ε β).toOption = some o := rfl

/-- A failed per-file result carries no output. -/
theorem toOption_error {ε β : Type} (e : ε) :
    (Except.error e : Except ε β).toOption = none := rfl

/-- **C9.** A per-file failure never aborts the run: the converter's outputs
are those of every convertible file of the whole list (files after a failure
included), and the reported counts are exactly the numbers of succeeded and
failed files, summing to the total. -/
theorem debugDump_partial_failure {α β : Type}
    (tryDump : α → Except DumpError β) (files : List α) :
    (HandleDebugDumpPackets tryDump files).outputs =
        files.filterMap (fun f => (tryDump f).toOption) ∧
      (HandleDebugDumpPackets tryDump files).succeeded =
        (files.filter (fun f => (tryDump f).toOption.isSome)).length ∧
      (HandleDebugDumpPackets tryDump files).failed =
        (files.filter (fun f => (tryDump f).toOption.isNone)).length ∧
      (HandleDebugDumpPackets tryDump files).succeeded +
          (HandleDebugDumpPackets tryDump files).failed = files.length := by
  induction files with
  | nil => simp [HandleDebugDumpPackets]
  | cons f rest ih =>
    obtain ⟨h1, h2, h3, h4⟩ := ih
    cases hf : tryDump f with
    | ok o =>
      simp only [HandleDebugDumpPackets, hf, List.filterMap_cons,
        List.filter_cons, toOption_ok, Option.isSome_some, Option.isNone_some,
        if_true, if_false, Bool.false_eq_true, List.length_cons, h1, h2, h3]
      refine ⟨trivial, trivial, trivial, by omega⟩
    | error e =>
      simp only [HandleDebugDumpPackets, hf, List.filterMap_cons,
        List.filter_cons, toOption_error, Option.isSome_none, Option.isNone_none,
        if_true, if_false, Bool.false_eq_true, List.length_cons, h1, h2, h3]
      refine ⟨trivial, trivial, trivial, by omega⟩

/-! ## Packet pool manager -/

/-- The four packet pools (spec §3, `CapturePool`). -/
inductive PoolId where
  | dictionary
  | dictionaryTest
  | trainer
  | compressionTest
  deriving Repr, DecidableEq

/-- The dictionary generator's state, field for field from the header
(configuration fields at lines 206–228, runtime fields at lines 236–252):
each pool is a packet array, a parallel size array, and a running byte
total; a single overflow flag `bDictionaryTestOverflow` follows the four
pools.  Sizes are `int32` in the source, holding packet lengths, modelled as
`Nat`. -/
structure FOodleDictionaryGenerator where
  bCompressionTest : Bool
  HashTableSize : Nat
  DictionarySize : Nat
  DictionaryTrials : Nat
  TrialRandomness : Nat
  TrialGenerations : Nat
  bNoTrials : Bool
  DictionaryPackets : List Packet
  DictionaryPacketSizes : List Nat
  DictionaryPacketBytes : Nat
  DictionaryTestPackets : List Packet
  DictionaryTestPacketSizes : List Nat
  DictionaryTestPacketBytes : Nat
  TrainerPackets : List Packet
  TrainerPacketSizes : List Nat
  TrainerPacketBytes : Nat
  CompressionTestPackets : List Packet
  CompressionTestPacketSizes : List Nat
  CompressionTestPacketBytes : Nat
  bDictionaryTestOverflow : Bool
  bDebugDump : Bool
  deriving Repr, DecidableEq

/-- The base constructor (header lines 258–275): zeroed configuration, empty
arrays, zero byte totals, cleared flags. -/
def initGenerator : FOodleDictionaryGenerator where
  bCompressionTest := false
  HashTableSize := 0
  DictionarySize := 0
  DictionaryTrials := 0
  TrialRandomness := 0
  TrialGenerations := 0
  bNoTrials := false
  DictionaryPackets := []
  DictionaryPacketSizes := []
  DictionaryPacketBytes := 0
  DictionaryTestPackets := []
  DictionaryTestPacketSizes := []
  DictionaryTestPacketBytes := 0
  TrainerPackets := []
  TrainerPacketSizes := []
  TrainerPacketBytes := 0
  CompressionTestPackets := []
  CompressionTestPacketSizes := []
  CompressionTestPacketBytes := 0
  bDictionaryTestOverflow := false
  bDebugDump := false

/-- The overflow flag a pool carries, read off the state layout of the
header (lines 236–249): exactly one flag exists, `bDictionaryTestOverflow`,
belonging to the dictionary-test pool; the other three pools carry none. -/
def poolOverflowFlag (g : FOodleDictionaryGenerator) : PoolId → Option Bool
  | .dictionaryTest => some g.bDictionaryTestOverflow
  | _ => none

/-- The classification a record is routed with (spec §4.3 `classify`'s
`mode`). -/
inductive ClassifyMode where
  | training
  | test
  | overflow
  | compressionTest
  deriving Repr, DecidableEq

/-- Append a record to the trainer-overflow pool (arrays and byte total in
step). -/
def addTrainer (g : FOodleDictionaryGenerator) (r : Packet) :
    FOodleDictionaryGenerator :=
  { g with
    TrainerPackets := g.TrainerPackets ++ [r]
    TrainerPacketSizes := g.TrainerPacketSizes ++ [r.length]
    TrainerPacketBytes := g.TrainerPacketBytes + r.length }

/-- Modelled from the spec: the pool-filling part of
`FOodleDictionaryGenerator::ReadPackets` (declared at header line 302) is
not in the repository.  Spec §4.3 `classify`: append the record to the pool
selected by the mode, updating the byte total; if appending would exceed the
pool's capacity ceiling, redirect the record to the trainer-overflow pool
instead of failing the read, and — the state carrying only the header's
single flag — set `bDictionaryTestOverflow` when the dictionary-test pool
would have been exceeded. -/
def classify (capDict capTest : Nat) (g : FOodleDictionaryGenerator)
    (r : Packet) : ClassifyMode → FOodleDictionaryGenerator
  | .training =>
    if g.DictionaryPacketBytes + r.length ≤ capDict then
      { g with
        DictionaryPackets := g.DictionaryPackets ++ [r]
        DictionaryPacketSizes := g.DictionaryPacketSizes ++ [r.length]
        DictionaryPacketBytes := g.DictionaryPacketBytes + r.length }
    else
      addTrainer g r
  | .test =>
    if g.DictionaryTestPacketBytes + r.length ≤ capTest then
      { g with
        DictionaryTestPackets := g.DictionaryTestPackets ++ [r]
        DictionaryTestPacketSizes := g.DictionaryTestPacketSizes ++ [r.length]
        DictionaryTestPacketBytes := g.DictionaryTestPacketBytes + r.length }
    else
      { addTrainer g r with bDictionaryTestOverflow := true }
  | .overflow => addTrainer g r
  | .compressionTest =>
    { g with
      CompressionTestPackets := g.CompressionTestPackets ++ [r]
      CompressionTestPacketSizes := g.CompressionTestPacketSizes ++ [r.length]
      CompressionTestPacketBytes := g.CompressionTestPacketBytes + r.length }

/-- Classify each decoded record in stream order; `assign` is the
training/test/overflow/compression-test split policy, which the spec leaves
qualitative (§4.3, §9 open question), applied to the record's stream
index. -/
def readLoop (capDict capTest : Nat) (assign : Nat → ClassifyMode) :
    Nat → List Packet → FOodleDictionaryGenerator → FOodleDictionaryGenerator
  | _, [], g => g
  | i, r :: rs, g =>
    readLoop capDict capTest assign (i + 1) rs (classify capDict capTest g r (assign i))

/-- Error of the pool-reading stage (spec §7). -/
inductive PoolError where
  | EmptyCaptureError
  deriving Repr, DecidableEq

/-- Modelled from the spec: the body of
`FOodleDictionaryGenerator::ReadPackets` (declared at header line 302) is
not in the repository.  Spec §4.3 `readAll`: decode every record of the
merged stream and classify it; fail with `EmptyCaptureError` when zero
packets were read. -/
def ReadPackets (capDict capTest : Nat) (assign : Nat → ClassifyMode)
    (records : List Packet) (g : FOodleDictionaryGenerator) :
    Except PoolError FOodleDictionaryGenerator :=
  if records.isEmpty then .error .EmptyCaptureError
  else .ok (readLoop capDict capTest assign 0 records g)

/-- All packets held across the four pools, in pool order. -/
def allPackets (g : FOodleDictionaryGenerator) : List Packet :=
  g.DictionaryPackets ++ g.DictionaryTestPackets ++ g.TrainerPackets ++
    g.CompressionTestPackets

/-- One classified record lands in exactly one pool: the pools' joint
contents grow by exactly that record. -/
theorem classify_allPackets_perm (capDict capTest : Nat)
    (g : FOodleDictionaryGenerator) (r : Packet) (m : ClassifyMode) :
    (allPackets (classify capDict capTest g r m)).Perm (r :: allPackets g) := by
  have pull2 : ∀ X Y Z : List Packet,
      (X ++ (Y ++ (r :: Z))).Perm (r :: (X ++ (Y ++ Z))) := fun X Y Z =>
    (List.Perm.append_left X List.perm_middle).trans List.perm_middle
  have pull3 : ∀ X Y Z W : List Packet,
      (X ++ (Y ++ (Z ++ (r :: W)))).Perm (r :: (X ++ (Y ++ (Z ++ W)))) :=
    fun X Y Z W =>
      (List.Perm.append_left X (pull2 Y Z W)).trans List.perm_middle
  have pull4 : ∀ X Y Z W : List Packet,
      (X ++ (Y ++ (Z ++ (W ++ [r])))).Perm (r :: (X ++ (Y ++ (Z ++ W)))) :=
    fun X Y Z W =>
      (List.Perm.append_left X (List.Perm.append_left Y
        (List.Perm.append_left Z List.perm_append_comm))).trans
        (pull3 X Y Z W)
  cases m with
  | training =>
    rw [classify]
    by_cases hc : g.DictionaryPacketBytes + r.length ≤ capDict
    · rw [if_pos hc]
      simp only [allPackets, List.append_assoc, List.singleton_append]
      exact List.perm_middle
    · rw [if_neg hc]
      simp only [allPackets, addTrainer, List.append_assoc,
        List.singleton_append]
      exact pull3 _ _ _ _
  | test =>
    rw [classify]
    by_cases hc : g.DictionaryTestPacketBytes + r.length ≤ capTest
    · rw [if_pos hc]
      simp only [allPackets, List.append_assoc, List.singleton_append]
      exact pull2 _ _ _
    · rw [if_neg hc]
      simp only [allPackets, addTrainer, List.append_assoc,
        List.singleton_append]
      exact pull3 _ _ _ _
  | overflow =>
    rw [classify]
    simp only [allPackets, addTrainer, List.append_assoc,
      List.singleton_append]
    exact pull3 _ _ _ _
  | compressionTest =>
    rw [classify]
    simp only [allPackets, List.append_assoc, List.singleton_append]
    exact pull4 _ _ _ _

/-- Over the whole read loop, the pools' joint contents grow by exactly the
records read: no record is dropped or duplicated across pools. -/
theorem readLoop_allPackets_perm (capDict capTest : Nat)
    (assign : Nat → ClassifyMode) (rs : List Packet) (i : Nat)
    (g : FOodleDictionaryGenerator) :
    (allPackets (readLoop capDict capTest assign i rs g)).Perm
      (rs ++ allPackets g) := by
  induction rs generalizing i g with
  | nil => simp [readLoop]
  | cons r rs ih =>
    rw [readLoop]
    refine ((ih _ _).trans ?_)
    refine (List.Perm.append_left rs
      (classify_allPackets_perm capDict capTest g r (assign i))).trans ?_
    exact List.perm_middle

/-- The dictionary pool's byte total never passes its ceiling: `classify`
redirects instead. -/
theorem classify_dictBytes_le (capDict capTest : Nat)
    (g : FOodleDictionaryGenerator) (r : Packet) (m : ClassifyMode)
    (h : g.DictionaryPacketBytes ≤ capDict) :
    (classify capDict capTest g r m).DictionaryPacketBytes ≤ capDict := by
  cases m with
  | training =>
    by_cases hc : g.DictionaryPacketBytes + r.length ≤ capDict <;>
      simp [classify, hc, addTrainer, h]
  | test =>
    by_cases hc : g.DictionaryTestPacketBytes + r.length ≤ capTest <;>
      simp [classify, hc, addTrainer, h]
  | overflow => simpa [classify, addTrainer] using h
  | compressionTest => simpa [classify] using h

/-- The dictionary-test pool's byte total never passes its ceiling:
`classify` redirects instead. -/
theorem classify_testBytes_le (capDict capTest : Nat)
    (g : FOodleDictionaryGenerator) (r : Packet) (m : ClassifyMode)
    (h : g.DictionaryTestPacketBytes ≤ capTest) :
    (classify capDict capTest g r m).DictionaryTestPacketBytes ≤ capTest := by
  cases m with
  | training =>
    by_cases hc : g.DictionaryPacketBytes + r.length ≤ capDict <;>
      simp [classify, hc, addTrainer, h]
  | test =>
    by_cases hc : g.DictionaryTestPacketBytes + r.length ≤ capTest <;>
      simp [classify, hc, addTrainer, h]
  | overflow => simpa [classify, addTrainer] using h
  | compressionTest => simpa [classify] using h

/-- Both capacity ceilings hold through the whole read loop. -/
theorem readLoop_bytes_le (capDict capTest : Nat)
    (assign : Nat → ClassifyMode) (rs : List Packet) (i : Nat)
    (g : FOodleDictionaryGenerator)
    (hd : g.DictionaryPacketBytes ≤ capDict)
    (ht : g.DictionaryTestPacketBytes ≤ capTest) :
    (readLoop capDict capTest assign i rs g).DictionaryPacketBytes ≤ capDict ∧
      (readLoop capDict capTest assign i rs g).DictionaryTestPacketBytes ≤
        capTest := by
  induction rs generalizing i g with
  | nil => exact ⟨hd, ht⟩
  | cons r rs ih =>
    rw [readLoop]
    exact ih _ _ (classify_dictBytes_le _ _ _ _ _ hd)
      (classify_testBytes_le _ _ _ _ _ ht)

/-- **C2 counterexample.** Contra the claim, not every pool carries an
overflow flag: after reading a concrete one-record stream, the dictionary
pool carries none — the generator state declares `bDictionaryTestOverflow`
only (header lines 236–249). -/
theorem overflow_flag_not_on_every_pool :
    ¬ ∀ p : PoolId,
        (poolOverflowFlag
          (readLoop 10 10 (fun _ => ClassifyMode.training) 0 [[1]] initGenerator)
          p).isSome = true :=
  fun h => by simpa [poolOverflowFlag] using h PoolId.dictionary

/-- **C2 (amended).** After `ReadPackets` completes on any merged stream,
the bytes held in the dictionary and dictionary-test pools sum to at most
the configured budget or `bDictionaryTestOverflow` is set; the
dictionary-test pool is the only pool carrying an overflow flag; and each
packet record belongs to exactly one pool (the pools' joint contents are a
permutation of the records read). -/
theorem readPackets_capacity_and_partition (capDict capTest : Nat)
    (assign : Nat → ClassifyMode) (records : List Packet)
    (g' : FOodleDictionaryGenerator)
    (h : ReadPackets capDict capTest assign records initGenerator = .ok g') :
    (g'.DictionaryPacketBytes + g'.DictionaryTestPacketBytes ≤
        capDict + capTest ∨ g'.bDictionaryTestOverflow = true) ∧
      (∀ p : PoolId,
        (poolOverflowFlag g' p).isSome = true ↔ p = PoolId.dictionaryTest) ∧
      (allPackets g').Perm records := by
  rw [ReadPackets] at h
  by_cases hemp : records.isEmpty
  · simp [hemp] at h
  · rw [if_neg hemp] at h
    injection h with h
    subst h
    refine ⟨?_, ?_, ?_⟩
    · have hb := readLoop_bytes_le capDict capTest assign records 0 initGenerator
        (by simp [initGenerator]) (by simp [initGenerator])
      exact Or.inl (by omega)
    · intro p
      cases p <;> simp [poolOverflowFlag]
    · have hp := readLoop_allPackets_perm capDict capTest assign records 0
        initGenerator
      simpa [allPackets, initGenerator] using hp

/-- **C2 (amended) witness.** A concrete two-record read: capacities 10/10,
all records routed to the training pool. -/
theorem readPackets_capacity_and_partition_witness :
    ((readLoop 10 10 (fun _ => ClassifyMode.training) 0 [[1], [2, 3]]
            initGenerator).DictionaryPacketBytes +
          (readLoop 10 10 (fun _ => ClassifyMode.training) 0 [[1], [2, 3]]
            initGenerator).DictionaryTestPacketBytes ≤ 10 + 10 ∨
        (readLoop 10 10 (fun _ => ClassifyMode.training) 0 [[1], [2, 3]]
          initGenerator).bDictionaryTestOverflow = true) ∧
      (∀ p : PoolId,
        (poolOverflowFlag
          (readLoop 10 10 (fun _ => ClassifyMode.training) 0 [[1], [2, 3]]
            initGenerator) p).isSome = true ↔ p = PoolId.dictionaryTest) ∧
      (allPackets
        (readLoop 10 10 (fun _ => ClassifyMode.training) 0 [[1], [2, 3]]
          initGenerator)).Perm [[1], [2, 3]] :=
  readPackets_capacity_and_partition 10 10 (fun _ => ClassifyMode.training)
    [[1], [2, 3]] _ rfl

/-- Well-formed parallel arrays: the packet array and size array of a pool
have equal length and the byte total is the sum of the size entries. -/
def PoolWF (packets : List Packet) (sizes : List Nat) (bytes : Nat) : Prop :=
  packets.length = sizes.length ∧ bytes = sizes.sum

/-- Every pool of the generator state has well-formed parallel arrays. -/
def GenWF (g : FOodleDictionaryGenerator) : Prop :=
  PoolWF g.DictionaryPackets g.DictionaryPacketSizes g.DictionaryPacketBytes ∧
    PoolWF g.DictionaryTestPackets g.DictionaryTestPacketSizes
      g.DictionaryTestPacketBytes ∧
    PoolWF g.TrainerPackets g.TrainerPacketSizes g.TrainerPacketBytes ∧
    PoolWF g.CompressionTestPackets g.CompressionTestPacketSizes
      g.CompressionTestPacketBytes

/-- `classify` keeps every pool's parallel arrays well-formed: the record
and its size are appended in step and the byte total accumulates the same
size. -/
theorem classify_GenWF (capDict capTest : Nat)
    (g : FOodleDictionaryGenerator) (r : Packet) (m : ClassifyMode)
    (h : GenWF g) : GenWF (classify capDict capTest g r m) := by
  obtain ⟨⟨h1a, h1b⟩, ⟨h2a, h2b⟩, ⟨h3a, h3b⟩, ⟨h4a, h4b⟩⟩ := h
  cases m with
  | training =>
    rw [classify]
    by_cases hc : g.DictionaryPacketBytes + r.length ≤ capDict
    · rw [if_pos hc]
      exact ⟨⟨by simp [h1a], by simp [h1b]⟩, ⟨h2a, h2b⟩, ⟨h3a, h3b⟩,
        ⟨h4a, h4b⟩⟩
    · rw [if_neg hc]
      exact ⟨⟨h1a, h1b⟩, ⟨h2a, h2b⟩,
        ⟨by simp [addTrainer, h3a], by simp [addTrainer, h3b]⟩, ⟨h4a, h4b⟩⟩
  | test =>
    rw [classify]
    by_cases hc : g.DictionaryTestPacketBytes + r.length ≤ capTest
    · rw [if_pos hc]
      exact ⟨⟨h1a, h1b⟩, ⟨by simp [h2a], by simp [h2b]⟩, ⟨h3a, h3b⟩,
        ⟨h4a, h4b⟩⟩
    · rw [if_neg hc]
      exact ⟨⟨h1a, h1b⟩, ⟨h2a, h2b⟩,
        ⟨by simp [addTrainer, h3a], by simp [addTrainer, h3b]⟩, ⟨h4a, h4b⟩⟩
  | overflow =>
    rw [classify]
    exact ⟨⟨h1a, h1b⟩, ⟨h2a, h2b⟩,
      ⟨by simp [addTrainer, h3a], by simp [addTrainer, h3b]⟩, ⟨h4a, h4b⟩⟩
  | compressionTest =>
    rw [classify]
    exact ⟨⟨h1a, h1b⟩, ⟨h2a, h2b⟩, ⟨h3a, h3b⟩,
      ⟨by simp [h4a], by simp [h4b]⟩⟩

/-- The read loop keeps every pool's parallel arrays well-formed. -/
theorem readLoop_GenWF (capDict capTest : Nat) (assign : Nat → ClassifyMode)
    (rs : List Packet) (i : Nat) (g : FOodleDictionaryGenerator)
    (h : GenWF g) : GenWF (readLoop capDict capTest assign i rs g) := by
  induction rs generalizing i g with
  | nil => exact h
  | cons r rs ih =>
    rw [readLoop]
    exact ih _ _ (classify_GenWF _ _ _ _ _ h)

/-- **C10.** Between public operations the parallel arrays never
desynchronise: the constructor establishes, and `ReadPackets` preserves,
that each pool's packet array and size array have equal length and its byte
total is the sum of the size entries. -/
theorem pool_arrays_wellformed :
    GenWF initGenerator ∧
      ∀ capDict capTest assign records g g',
        GenWF g →
        ReadPackets capDict capTest assign records g = .ok g' →
        GenWF g' := by
  refine ⟨by simp [GenWF, PoolWF, initGenerator], ?_⟩
  intro capDict capTest assign records g g' hg h
  rw [ReadPackets] at h
  by_cases hemp : records.isEmpty
  · simp [hemp] at h
  · rw [if_neg hemp] at h
    injection h with h
    subst h
    exact readLoop_GenWF _ _ _ _ _ _ hg

/-- **C10 witness.** The invariant at a concrete state: initial state, then
a two-record read at capacities 10/10. -/
theorem pool_arrays_wellformed_witness :
    GenWF initGenerator ∧
      GenWF (readLoop 10 10 (fun _ => ClassifyMode.training) 0 [[1], [2, 3]]
        initGenerator) :=
  ⟨pool_arrays_wellformed.1,
    pool_arrays_wellformed.2 10 10 (fun _ => ClassifyMode.training)
      [[1], [2, 3]] initGenerator _ pool_arrays_wellformed.1 rfl⟩

/-! ## Trial search engine -/

/-- Immutable parameters of one generation run (spec §3, `TrialConfig`),
matching the commandlet's configuration fields (header lines 73–95). -/
structure TrialConfig where
  HashTableSize : Nat
  DictionarySize : Nat
  DictionaryTrials : Nat
  TrialRandomness : Nat
  TrialGenerations : Nat
  bNoTrials : Bool
  deriving Repr, DecidableEq

/-- Modelled from the spec: the engine's random source is unspecified beyond
determinism from the seed (spec §4.4); a 64-bit linear congruential step
stands in for it. -/
def lcg (s : Nat) : Nat :=
  (6364136223846793005 * s + 1442695040888963407) % 2 ^ 64

/-- Modelled from the spec: §5 requires each trial's random draws to be
seeded deterministically from the run seed and the (generation, trial)
indices, so that the evaluation order cannot change them. -/
def mixSeed (seed g t : Nat) : Nat :=
  lcg (seed + 2654435761 * g + 40503 * t)

/-- A stream of pseudo-random draws unfolded from a state. -/
def draws (s : Nat) : Nat → List Nat
  | 0 => []
  | n + 1 => lcg s :: draws (lcg s) n

/-- Modelled from the spec: a trial candidate starts from the carry-forward
selection and replaces a `TrialRandomness`-percent fraction of its members
with randomly drawn replacements from the pool material (spec §4.4; which
positions are replaced the spec leaves open — here the leading ones).
Replacement indices are drawn modulo the pool size. -/
def mutate (cand : List Nat) (randPct poolSize seed : Nat) : List Nat :=
  (draws seed (cand.length * randPct / 100)).map (· % max poolSize 1) ++
    cand.drop (cand.length * randPct / 100)

/-- Look a candidate's packets up in the pool by index (spec §3: a
`TrialCandidate` is a subset of DictionaryPool by index, not copy). -/
def selectPackets (pool : List Packet) (cand : List Nat) : List Packet :=
  cand.map fun i => pool.getD i []

/-- The candidate built by trial `t` of generation `g` from the
carry-forward selection. -/
def trialCand (pool : List Packet) (cfg : TrialConfig) (carry : List Nat)
    (seed g t : Nat) : List Nat :=
  mutate carry cfg.TrialRandomness pool.length (mixSeed seed g t)

/-- The measured quality of trial `t` of generation `g`: the external
train-and-measure primitive (abstracted as `scoreC`, spec §6) applied to the
trial's packet selection. -/
def trialScore (pool : List Packet) (scoreC : List Packet → Nat)
    (cfg : TrialConfig) (carry : List Nat) (seed g t : Nat) : Nat :=
  scoreC (selectPackets pool (trialCand pool cfg carry seed g t))

/-- The better of two trial indices under a score: the higher score wins, an
equal score keeping the earlier-indexed trial (spec §4.4 tie-break:
first-seen preference). -/
def betterTrial (s : Nat → Nat) (t b : Nat) : Nat :=
  if s b < s t ∨ (s t = s b ∧ t < b) then t else b

/-- One step of winner selection over a schedule of trial indices. -/
def stepBest (s : Nat → Nat) (acc : Option Nat) (t : Nat) : Option Nat :=
  match acc with
  | none => some t
  | some b => some (betterTrial s t b)

/-- The generation's winning trial index, folding the trials in evaluation
order. -/
def winnerIdx (s : Nat → Nat) (sched : List Nat) : Option Nat :=
  sched.foldl (stepBest s) none

/-- `betterTrial` is symmetric: the max-score min-index element does not
depend on argument order. -/
theorem betterTrial_comm (s : Nat → Nat) (a b : Nat) :
    betterTrial s a b = betterTrial s b a := by
  unfold betterTrial
  split_ifs <;> omega

/-- `betterTrial` commutes with itself on the left. -/
theorem betterTrial_left_comm (s : Nat → Nat) (a b c : Nat) :
    betterTrial s a (betterTrial s b c) =
      betterTrial s b (betterTrial s a c) := by
  unfold betterTrial
  split_ifs <;> omega

/-- Winner-selection steps commute, so the winner is a pure reduction over
the trial set. -/
theorem stepBest_left_comm (s : Nat → Nat) (acc : Option Nat) (a b : Nat) :
    stepBest s (stepBest s acc a) b = stepBest s (stepBest s acc b) a := by
  cases acc with
  | none =>
    show some (betterTrial s b a) = some (betterTrial s a b)
    exact congrArg some (betterTrial_comm s b a)
  | some c =>
    show some (betterTrial s b (betterTrial s a c)) =
      some (betterTrial s a (betterTrial s b c))
    exact congrArg some (betterTrial_left_comm s b a c)

/-- A left fold by a left-commutative step is invariant under permutation of
the folded list. -/
theorem foldl_perm_invariant {α β : Type} (f : β → α → β)
    (hf : ∀ acc a b, f (f acc a) b = f (f acc b) a) {l₁ l₂ : List α}
    (h : l₁.Perm l₂) (init : β) : l₁.foldl f init = l₂.foldl f init := by
  induction h generalizing init with
  | nil => rfl
  | cons x h ih => simp only [List.foldl_cons]; exact ih _
  | swap x y l => simp only [List.foldl_cons]; rw [hf]
  | trans h₁ h₂ ih₁ ih₂ => exact (ih₁ init).trans (ih₂ init)

/-- Two complete evaluation schedules of the same trials select the same
winner. -/
theorem winnerIdx_perm (s : Nat → Nat) {l₁ l₂ : List Nat} (h : l₁.Perm l₂) :
    winnerIdx s l₁ = winnerIdx s l₂ :=
  foldl_perm_invariant (stepBest s) (stepBest_left_comm s) h none

/-- Modelled from the spec: the generation loop of
`FOodleDictionaryGenerator::GenerateAndWriteDictionary` (declared at header
line 309) is not in the repository.  One generation (spec §4.4): every trial
mutates the carry-forward candidate with draws seeded from (seed,
generation, trial); `sched` is the order the trials are evaluated in (§5
permits any, including parallel); the best trial — highest score, earliest
index on ties — replaces the carry-forward unless it scores strictly below
it (the engine never regresses its best-known candidate). -/
def genStep (pool : List Packet) (scoreC : List Packet → Nat)
    (cfg : TrialConfig) (seed g : Nat) (sched : List Nat)
    (carry : List Nat × Nat) : List Nat × Nat :=
  match winnerIdx (trialScore pool scoreC cfg carry.1 seed g) sched with
  | none => carry
  | some w =>
    if carry.2 ≤ trialScore pool scoreC cfg carry.1 seed g w then
      (trialCand pool cfg carry.1 seed g w,
        trialScore pool scoreC cfg carry.1 seed g w)
    else carry

/-- The carry-forward the loop starts from: the full dictionary pool with
its measured score (spec §4.4, generation 1 starts from the full pool). -/
def initialCarry (pool : List Packet) (scoreC : List Packet → Nat) :
    List Nat × Nat :=
  (List.range pool.length,
    scoreC (selectPackets pool (List.range pool.length)))

/-- The carry-forward candidate (selection and measured score) after the
first `n` generations. -/
def carryAfter (pool : List Packet) (scoreC : List Packet → Nat)
    (cfg : TrialConfig) (seed : Nat) (scheds : Nat → List Nat) (n : Nat) :
    List Nat × Nat :=
  (List.range n).foldl
    (fun c g => genStep pool scoreC cfg seed (g + 1) (scheds (g + 1)) c)
    (initialCarry pool scoreC)

/-- Unrolling one generation off the carry-forward iteration. -/
theorem carryAfter_succ (pool : List Packet) (scoreC : List Packet → Nat)
    (cfg : TrialConfig) (seed : Nat) (scheds : Nat → List Nat) (n : Nat) :
    carryAfter pool scoreC cfg seed scheds (n + 1) =
      genStep pool scoreC cfg seed (n + 1) (scheds (n + 1))
        (carryAfter pool scoreC cfg seed scheds n) := by
  simp [carryAfter, List.range_succ]

/-- Modelled from the spec: the candidate handed to the training primitive —
with `bNoTrials` set, the whole dictionary pool in a single deterministic
pass (no trial, no random draw); otherwise the carry-forward selection after
`TrialGenerations` generations (spec §4.4 state machine). -/
def finalCandidate (pool : List Packet) (scoreC : List Packet → Nat)
    (cfg : TrialConfig) (seed : Nat) (scheds : Nat → List Nat) :
    List Packet :=
  if cfg.bNoTrials then pool
  else
    selectPackets pool
      (carryAfter pool scoreC cfg seed scheds cfg.TrialGenerations).1

/-- Modelled from the spec: the training-and-writing stage of
`FOodleDictionaryGenerator::GenerateAndWriteDictionary` (header line 309) is
not in the repository; the external training primitive (spec §6, `train`) is
applied to the final candidate and its bytes are the written dictionary. -/
def GenerateAndWriteDictionary (train : List Packet → List Nat)
    (pool : List Packet) (scoreC : List Packet → Nat) (cfg : TrialConfig)
    (seed : Nat) (scheds : Nat → List Nat) : List Nat :=
  train (finalCandidate pool scoreC cfg seed scheds)

/-- **C3.** The generated dictionary is a deterministic function of corpus,
configuration and seed: two complete runs — each evaluating every trial of
every generation, in whatever order its schedule lists them — produce
byte-identical output. -/
theorem generateDictionary_deterministic (train : List Packet → List Nat)
    (pool : List Packet) (scoreC : List Packet → Nat) (cfg : TrialConfig)
    (seed : Nat) (scheds₁ scheds₂ : Nat → List Nat)
    (h₁ : ∀ g, (scheds₁ g).Perm (List.range cfg.DictionaryTrials))
    (h₂ : ∀ g, (scheds₂ g).Perm (List.range cfg.DictionaryTrials)) :
    GenerateAndWriteDictionary train pool scoreC cfg seed scheds₁ =
      GenerateAndWriteDictionary train pool scoreC cfg seed scheds₂ := by
  have hstep : ∀ g c, genStep pool scoreC cfg seed g (scheds₁ g) c =
      genStep pool scoreC cfg seed g (scheds₂ g) c := by
    intro g c
    unfold genStep
    rw [winnerIdx_perm (trialScore pool scoreC cfg c.1 seed g)
      ((h₁ g).trans (h₂ g).symm)]
  have hcarry : ∀ n, carryAfter pool scoreC cfg seed scheds₁ n =
      carryAfter pool scoreC cfg seed scheds₂ n := by
    intro n
    induction n with
    | zero => rfl
    | succ n ih =>
      rw [carryAfter_succ, carryAfter_succ, ih, hstep]
  unfold GenerateAndWriteDictionary finalCandidate
  rw [hcarry]

/-- **C3 witness.** Two runs of a two-trial, one-generation search with
opposite evaluation orders agree. -/
theorem generateDictionary_deterministic_witness :
    (∀ g : Nat, (([0, 1] : List Nat)).Perm
      (List.range (⟨16, 8, 2, 50, 1, false⟩ : TrialConfig).DictionaryTrials)) ∧
      (∀ g : Nat, (([1, 0] : List Nat)).Perm
        (List.range
          (⟨16, 8, 2, 50, 1, false⟩ : TrialConfig).DictionaryTrials)) ∧
      GenerateAndWriteDictionary (fun ps => [ps.length]) [[1], [2, 3]]
          (fun ps => ps.length) ⟨16, 8, 2, 50, 1, false⟩ 7
          (fun _ => [0, 1]) =
        GenerateAndWriteDictionary (fun ps => [ps.length]) [[1], [2, 3]]
          (fun ps => ps.length) ⟨16, 8, 2, 50, 1, false⟩ 7
          (fun _ => [1, 0]) :=
  ⟨fun _ => (by decide : ([0, 1] : List Nat).Perm (List.range 2)),
    fun _ => (by decide : ([1, 0] : List Nat).Perm (List.range 2)),
    generateDictionary_deterministic (fun ps => [ps.length]) [[1], [2, 3]]
      (fun ps => ps.length) ⟨16, 8, 2, 50, 1, false⟩ 7 (fun _ => [0, 1])
      (fun _ => [1, 0])
      (fun _ => (by decide : ([0, 1] : List Nat).Perm (List.range 2)))
      (fun _ => (by decide : ([1, 0] : List Nat).Perm (List.range 2)))⟩

/-- One generation never lowers the carry-forward's measured score. -/
theorem genStep_score_le (pool : List Packet) (scoreC : List Packet → Nat)
    (cfg : TrialConfig) (seed g : Nat) (sched : List Nat)
    (c : List Nat × Nat) :
    c.2 ≤ (genStep pool scoreC cfg seed g sched c).2 := by
  rcases hw : winnerIdx (trialScore pool scoreC cfg c.1 seed g) sched with _ | w
  · simp [genStep, hw]
  · by_cases hc : c.2 ≤ trialScore pool scoreC cfg c.1 seed g w
    · simp [genStep, hw, hc]
    · simp [genStep, hw, hc]

/-- **C4.** Across the generation loop the carry-forward candidate's
measured score never regresses: at every generation `g` (spec range
`1 ≤ g < TrialGenerations`) the score after generation `g + 1` is at least
the score after generation `g`. -/
theorem carry_score_monotone (pool : List Packet) (scoreC : List Packet → Nat)
    (cfg : TrialConfig) (seed : Nat) (scheds : Nat → List Nat) (g : Nat)
    (h1 : 1 ≤ g) (h2 : g < cfg.TrialGenerations) :
    (carryAfter pool scoreC cfg seed scheds g).2 ≤
      (carryAfter pool scoreC cfg seed scheds (g + 1)).2 := by
  rw [carryAfter_succ]
  exact genStep_score_le pool scoreC cfg seed (g + 1) (scheds (g + 1))
    (carryAfter pool scoreC cfg seed scheds g)

/-- **C4 witness.** The monotonicity instance at generation 1 of a concrete
three-generation search. -/
theorem carry_score_monotone_witness :
    (1 : Nat) ≤ 1 ∧
      1 < (⟨16, 8, 2, 50, 3, false⟩ : TrialConfig).TrialGenerations ∧
      (carryAfter [[1], [2, 3]] (fun ps => ps.length)
          ⟨16, 8, 2, 50, 3, false⟩ 7 (fun _ => [0, 1]) 1).2 ≤
        (carryAfter [[1], [2, 3]] (fun ps => ps.length)
          ⟨16, 8, 2, 50, 3, false⟩ 7 (fun _ => [0, 1]) 2).2 :=
  ⟨by decide, by decide,
    carry_score_monotone [[1], [2, 3]] (fun ps => ps.length)
      ⟨16, 8, 2, 50, 3, false⟩ 7 (fun _ => [0, 1]) 1 (by decide) (by decide)⟩

/-- **C8.** With `bNoTrials` set the search is a single deterministic pass:
the entire dictionary pool is the sole training candidate, and the output is
independent of the seed, the trial schedules and even the scoring oracle —
no random packet substitution can be observed. -/
theorem noTrials_single_pass (train : List Packet → List Nat)
    (pool : List Packet) (scoreC : List Packet → Nat) (cfg : TrialConfig)
    (seed : Nat) (scheds : Nat → List Nat) (h : cfg.bNoTrials = true) :
    finalCandidate pool scoreC cfg seed scheds = pool ∧
      ∀ (seed₂ : Nat) (scheds₂ : Nat → List Nat)
        (scoreC₂ : List Packet → Nat),
        GenerateAndWriteDictionary train pool scoreC cfg seed scheds =
          GenerateAndWriteDictionary train pool scoreC₂ cfg seed₂ scheds₂ := by
  constructor
  · simp [finalCandidate, h]
  · intro seed₂ scheds₂ scoreC₂
    simp [GenerateAndWriteDictionary, finalCandidate, h]

set_option maxRecDepth 100000 in
/-- **C8 witness.** The spec scenario: three capture files of 50, 30 and 20
packets merge into one 100-record stream, all within capacity, and with
`bNoTrials` the sole training candidate is exactly that 100-packet pool,
whatever the seed or oracle. -/
theorem noTrials_single_pass_witness :
    (⟨16, 8, 2, 50, 3, true⟩ : TrialConfig).bNoTrials = true ∧
      (readLoop 1000 1000 (fun _ => ClassifyMode.training) 0
        (List.replicate 50 ([] : Packet) ++ List.replicate 30 ([] : Packet) ++
          List.replicate 20 ([] : Packet))
        initGenerator).DictionaryPackets.length = 100 ∧
      finalCandidate
          (readLoop 1000 1000 (fun _ => ClassifyMode.training) 0
            (List.replicate 50 ([] : Packet) ++
              List.replicate 30 ([] : Packet) ++
              List.replicate 20 ([] : Packet))
            initGenerator).DictionaryPackets
          (fun ps => ps.length) ⟨16, 8, 2, 50, 3, true⟩ 7 (fun _ => [0, 1]) =
        (readLoop 1000 1000 (fun _ => ClassifyMode.training) 0
          (List.replicate 50 ([] : Packet) ++ List.replicate 30 ([] : Packet) ++
            List.replicate 20 ([] : Packet))
          initGenerator).DictionaryPackets ∧
      GenerateAndWriteDictionary (fun ps => [ps.length])
          (readLoop 1000 1000 (fun _ => ClassifyMode.training) 0
            (List.replicate 50 ([] : Packet) ++
              List.replicate 30 ([] : Packet) ++
              List.replicate 20 ([] : Packet))
            initGenerator).DictionaryPackets
          (fun ps => ps.length) ⟨16, 8, 2, 50, 3, true⟩ 7 (fun _ => [0, 1]) =
        GenerateAndWriteDictionary (fun ps => [ps.length])
          (readLoop 1000 1000 (fun _ => ClassifyMode.training) 0
            (List.replicate 50 ([] : Packet) ++
              List.replicate 30 ([] : Packet) ++
              List.replicate 20 ([] : Packet))
            initGenerator).DictionaryPackets
          (fun ps => ps.length + 1) ⟨16, 8, 2, 50, 3, true⟩ 99
          (fun _ => [1, 0]) :=
  ⟨rfl, by decide,
    (noTrials_single_pass (fun ps => [ps.length]) _ (fun ps => ps.length)
      ⟨16, 8, 2, 50, 3, true⟩ 7 (fun _ => [0, 1]) rfl).1,
    (noTrials_single_pass (fun ps => [ps.length]) _ (fun ps => ps.length)
      ⟨16, 8, 2, 50, 3, true⟩ 7 (fun _ => [0, 1]) rfl).2 99 (fun _ => [1, 0])
      (fun ps => ps.length + 1)⟩

end Oodle
